import Mathlib

/-!
# Verification of the nix-installer action catalog excerpt

A shallow embedding of the Rust sources under `src/`:

* `src/action/base/move_directory.rs` (`MoveDirectory`: `plan`,
  `check_src_and_dest`, `execute`, `revert`),
* `src/action/linux/create_users_and_groups_sysusers.rs`
  (`CreateUsersAndGroupsSysUsers`: `plan`, `tracing_synopsis`, the sysusers
  file content written by `execute`),
* `src/action/linux/enable_systemd_unit.rs` (`EnableSystemdUnit::plan`),
* `src/planner/bootc.rs` (`Bootc`: `settings`, `configured_settings`,
  `platform_check`; `BootcError` and its `HasExpectedErrors` impl).

Filesystem model: a path is a list of components (absolute, relative to the
root `[]`), and a filesystem is an association list from paths to nodes
(regular file with contents, or directory).  The `tokio::fs` operations used
by the source are modelled pointwise on this structure:

* `metadata p`     = resolve the strict ancestors of `p` in order; if one
  is missing or a regular file the stat errors (ENOENT/ENOTDIR, both
  mapped by the caller to the same error kind), otherwise the node at `p`
  (ENOENT when absent),
* `try_exists p`   = the same resolution, but a NotFound along the way (a
  missing ancestor, or `p` itself absent) is `Ok(false)`, while an ENOTDIR
  (the first offending ancestor exists as a regular file) is propagated as
  an error, exactly as `std::path::Path::try_exists` propagates every
  non-NotFound error,
* `create_dir_all` = add a directory node for every missing ancestor,
  failing (with no mutation, as the real call fails on its first missing
  component whose parent chain hits a file) when an ancestor is a file,
* `rename src dest` = POSIX rename(2): fails when `src` is missing, when
  `src` is a proper path-prefix of `dest` (EINVAL), when an ancestor of
  `dest` is missing or not a directory (ENOENT/ENOTDIR), or when `dest`
  exists (the empty-directory-overwrite success of rename(2) is not
  modelled; every call site checks `dest` is absent first, so the branch is
  unreachable in this development); on success the whole subtree rooted at
  `src` is remapped below `dest`.

Effectful functions are written state-passing: they return their
`Result`-style outcome together with the (possibly mutated) filesystem, so
"the filesystem is left unchanged" is a statable property of error paths.
-/

/-! ## Paths, nodes, filesystems -/

/-- A filesystem path, as its list of components below the root. -/
abbrev FsPath := List String

/-- A filesystem node: a regular file (with contents) or a directory. -/
inductive Node where
  | file (contents : String)
  | dir
deriving DecidableEq, Repr

/-- Rust `is_dir` of `std::fs::Metadata`. -/
def Node.is_dir : Node → Bool
  | .file _ => false
  | .dir => true

/-- A filesystem: an association list from paths to nodes. -/
abbrev FS := List (FsPath × Node)

/-- First-match association-list lookup (used both for the filesystem and
for the planner settings maps). -/
def lookupFirst {α β : Type} [DecidableEq α] : List (α × β) → α → Option β
  | [], _ => none
  | e :: rest, k => if e.1 = k then some e.2 else lookupFirst rest k

/-- Look up the node at a path. -/
def FS.find (fs : FS) (p : FsPath) : Option Node :=
  lookupFirst fs p

/-- Is `FS.find` a regular file?  (Decidable stand-in for
"`∃ s, · = some (.file s)`".) -/
def isSomeFile : Option Node → Bool
  | some (.file _) => true
  | _ => false

/-- Well-formed filesystem: every strict ancestor of an existing path is a
directory.  (On a real filesystem an entry can only exist when its whole
parent chain consists of directories.) -/
def FS.WF (fs : FS) : Prop :=
  ∀ e ∈ fs, ∀ q ∈ e.1.inits, q ≠ e.1 → fs.find q = some Node.dir

instance (fs : FS) : Decidable (FS.WF fs) := by
  unfold FS.WF; infer_instance

/-- Rust `Path::parent`: `None` for the root, otherwise the path without its
last component. -/
def FsPath.parent (p : FsPath) : Option FsPath :=
  match p with
  | [] => none
  | _ :: _ => some p.dropLast

/-- Every strict ancestor of `p` is a directory in `fs` (the condition
rename(2) needs on the destination's parent chain). -/
def ancestorsAreDirs (fs : FS) (p : FsPath) : Bool :=
  p.inits.all fun q => decide (q = p) || decide (fs.find q = some Node.dir)

/-- Walk a list of paths in order and return the first one that is not a
directory, if any.  Applied to the strict ancestors of a path (shortest
first) this mirrors how stat(2) resolves one component at a time. -/
def walkAncestors (fs : FS) : List FsPath → Option FsPath
  | [] => none
  | q :: rest =>
    if fs.find q = some Node.dir then walkAncestors fs rest else some q

/-- The first strict ancestor of `p` (in resolution order, shortest first)
that exists but is not a directory, or is missing — the component at which
stat(2) path resolution stops. -/
def firstBadAncestor (fs : FS) (p : FsPath) : Option FsPath :=
  walkAncestors fs (p.inits.filter fun q => decide (q ≠ p))

/-- Model of `tokio::fs::metadata`: path resolution fails (ENOTDIR or
ENOENT, both reported as `none` since the caller maps every error to the
same kind) when some strict ancestor is a regular file or missing;
otherwise the node at `p` itself (`none` = ENOENT when absent). -/
def FS.metadata (fs : FS) (p : FsPath) : Option Node :=
  match firstBadAncestor fs p with
  | some _ => none
  | none => fs.find p

/-- Model of `tokio::fs::try_exists`: `some exists?`, where a NotFound
during resolution (a missing ancestor, or `p` itself absent) counts as
"does not exist", but any other resolution error — ENOTDIR, i.e. the
first offending ancestor exists as a regular file — is propagated as an
error (`none`). -/
def FS.try_exists (fs : FS) (p : FsPath) : Option Bool :=
  match firstBadAncestor fs p with
  | some q =>
    match fs.find q with
    | some (.file _) => none
    | _ => some false
  | none => some (fs.find p).isSome

/-- Model of `tokio::fs::create_dir_all`: create a directory node at every missing
ancestor of `p` (and at `p` itself); fail without mutating when some
ancestor exists as a regular file. -/
def create_dir_all (fs : FS) (p : FsPath) : Option FS :=
  if p.inits.all (fun q => !isSomeFile (fs.find q)) then
    some (fs ++ (p.inits.filter fun q => decide (fs.find q = none)).map fun q => (q, Node.dir))
  else none

/-- The pure relocation underlying a successful rename: every entry below
`src` is re-rooted below `dest`; all other entries are untouched. -/
def FS.renameMap (fs : FS) (src dest : FsPath) : FS :=
  fs.map fun e =>
    if src.isPrefixOf e.1 then (dest ++ e.1.drop src.length, e.2) else e

/-- Model of `tokio::fs::rename` (POSIX rename(2)); see the module docstring for the
modelled failure cases. -/
def FS.rename (fs : FS) (src dest : FsPath) : Option FS :=
  if fs.find src = none then none
  else if src = dest then some fs
  else if src.isPrefixOf dest then none
  else if !ancestorsAreDirs fs dest then none
  else if (fs.find dest).isSome then none
  else some (fs.renameMap src dest)

/-! ## Action plumbing (`crate::action`) -/

/-- The `ActionState` enum (action/mod.rs, via the spec §3). -/
inductive ActionState where
  | Uncompleted
  | Progress
  | Completed
deriving DecidableEq, Repr

/-- The `ActionErrorKind` variants used by the embedded actions. -/
inductive ActionErrorKind where
  | GettingMetadata (p : FsPath)
  | DirExists (p : FsPath)
  | PathWasNotDirectory (p : FsPath)
  | CreateDirectory (p : FsPath)
  | Rename (src dest : FsPath)
deriving DecidableEq, Repr

instance : DecidableEq (Except ActionErrorKind Unit) := fun a b =>
  match a, b with
  | .ok (), .ok () => isTrue rfl
  | .error e1, .error e2 =>
    match decEq e1 e2 with
    | isTrue h => isTrue (by rw [h])
    | isFalse h => isFalse fun hh => h (by cases hh; rfl)
  | .ok (), .error _ => isFalse fun h => Except.noConfusion h
  | .error _, .ok () => isFalse fun h => Except.noConfusion h

/-- A `StatefulAction` value: an action together with its completion state. -/
structure StatefulAction (α : Type) where
  action : α
  state : ActionState
deriving DecidableEq, Repr

/-- The target system as visible to the embedded functions: the filesystem,
plus the log of external commands spawned so far (each as its argv list).
Planning and execution functions take and return a `World`; a function that
returns its input `World` unchanged performed no system mutation. -/
structure World where
  fs : FS
  commands : List (List String)
deriving DecidableEq, Repr

/-! ## `MoveDirectory` (src/action/base/move_directory.rs) -/

/-- The `MoveDirectory` action. -/
structure MoveDirectory where
  src : FsPath
  dest : FsPath
deriving DecidableEq, Repr

/-- Model of `MoveDirectory::plan`.  The source constructs the `StatefulAction`
directly: it performs no filesystem inspection and no mutation, and always
returns state `Uncompleted`. -/
def MoveDirectory.plan (w : World) (src dest : FsPath) :
    Except ActionErrorKind (StatefulAction MoveDirectory) × World :=
  (.ok { action := { src := src, dest := dest }, state := .Uncompleted }, w)

/-- Model of `MoveDirectory::check_src_and_dest`: stat the source (failing
with `GettingMetadata src` when the stat fails), then ask `try_exists` for
the destination (failing with `GettingMetadata dest` when it errors, e.g.
an ancestor of the destination is a regular file), then fail with
`DirExists` when the destination exists, then with `PathWasNotDirectory`
when the source is not a directory. -/
def MoveDirectory.check_src_and_dest (fs : FS) (src dest : FsPath) :
    Except ActionErrorKind Unit :=
  match fs.metadata src with
  | none => .error (.GettingMetadata src)
  | some srcMeta =>
    match fs.try_exists dest with
    | none => .error (.GettingMetadata dest)
    | some dest_exists =>
      if dest_exists then .error (.DirExists dest)
      else if !srcMeta.is_dir then .error (.PathWasNotDirectory src)
      else .ok ()

/-- The shared tail of `execute`/`revert`: perform the rename, mapping
failure to `ActionErrorKind::Rename` and leaving the filesystem unchanged
on error. -/
def renameStep (fs : FS) (src dest : FsPath) : Except ActionErrorKind Unit × FS :=
  match fs.rename src dest with
  | some fs2 => (.ok (), fs2)
  | none => (.error (.Rename src dest), fs)

/-- Model of `MoveDirectory::execute`: re-check preconditions, create the
destination's parent directory when missing, then rename. -/
def MoveDirectory.execute (fs : FS) (a : MoveDirectory) :
    Except ActionErrorKind Unit × FS :=
  match MoveDirectory.check_src_and_dest fs a.src a.dest with
  | .error e => (.error e, fs)
  | .ok _ =>
    match a.dest.parent with
    | none => renameStep fs a.src a.dest
    | some par =>
      match fs.try_exists par with
      | none => (.error (.GettingMetadata par), fs)
      | some parent_exists =>
        if parent_exists then renameStep fs a.src a.dest
        else
          match create_dir_all fs par with
          | none => (.error (.CreateDirectory par), fs)
          | some fs1 => renameStep fs1 a.src a.dest

/-- Model of `MoveDirectory::revert`: the mirror of `execute` with source and
destination swapped. -/
def MoveDirectory.revert (fs : FS) (a : MoveDirectory) :
    Except ActionErrorKind Unit × FS :=
  match MoveDirectory.check_src_and_dest fs a.dest a.src with
  | .error e => (.error e, fs)
  | .ok _ =>
    match a.src.parent with
    | none => renameStep fs a.dest a.src
    | some par =>
      match fs.try_exists par with
      | none => (.error (.GettingMetadata par), fs)
      | some parent_exists =>
        if parent_exists then renameStep fs a.dest a.src
        else
          match create_dir_all fs par with
          | none => (.error (.CreateDirectory par), fs)
          | some fs1 => renameStep fs1 a.dest a.src

/-! ## Claim-shaped predicates for `MoveDirectory` -/

/-- Claim C3 as stated: whenever the destination exists `execute` returns
`DirExists` without mutating, and whenever the source exists as a non-
directory `execute` returns `PathWasNotDirectory` without mutating. -/
def MoveExecuteRevalidates (fs : FS) (src dest : FsPath) : Prop :=
  ((fs.find dest).isSome = true →
    MoveDirectory.execute fs { src := src, dest := dest } =
      (.error (.DirExists dest), fs)) ∧
  (∀ s, fs.find src = some (.file s) →
    MoveDirectory.execute fs { src := src, dest := dest } =
      (.error (.PathWasNotDirectory src), fs))

/-- Claim C4 as stated (the round-trip property): after `execute` then
`revert`, the subtree at the source has its original contents and the
destination subtree is absent. -/
def moveRoundTripOK (fs : FS) (src dest : FsPath) : Prop :=
  (∀ p, src <+: p →
    FS.find (MoveDirectory.revert
        (MoveDirectory.execute fs { src := src, dest := dest }).2
        { src := src, dest := dest }).2 p = fs.find p) ∧
  (∀ p, dest <+: p →
    FS.find (MoveDirectory.revert
        (MoveDirectory.execute fs { src := src, dest := dest }).2
        { src := src, dest := dest }).2 p = none)

/-- Claim C5 as stated: under `execute`'s preconditions, `execute`
succeeds, the source subtree is gone, the destination subtree holds exactly
the old source subtree, and the destination's ancestors are directories. -/
def moveExecuteOK (fs : FS) (src dest : FsPath) : Prop :=
  (MoveDirectory.execute fs { src := src, dest := dest }).1 = .ok () ∧
  (∀ p, src <+: p →
    FS.find (MoveDirectory.execute fs { src := src, dest := dest }).2 p = none) ∧
  (∀ t, FS.find (MoveDirectory.execute fs { src := src, dest := dest }).2 (dest ++ t) =
    fs.find (src ++ t)) ∧
  (∀ q, q <+: dest → q ≠ dest →
    FS.find (MoveDirectory.execute fs { src := src, dest := dest }).2 q = some Node.dir)

/-! ## `CreateUsersAndGroupsSysUsers`
(src/action/linux/create_users_and_groups_sysusers.rs) -/

/-- Modelled from the spec: `CommonSettings` itself lives in settings.rs,
which is not part of the excerpt; per the spec a planner configuration is
a flat record of settings, and the fields kept here are exactly the ones
`CreateUsersAndGroupsSysUsers::plan` copies out of it. -/
structure CommonSettings where
  nix_build_group_name : String
  nix_build_group_id : Nat
  nix_build_user_count : Nat
  nix_build_user_prefix : String
  nix_build_user_id_base : Nat
deriving DecidableEq, Repr

/-- The `SYSUSERS_PATH` constant. -/
def SYSUSERS_PATH : String := "/usr/lib/sysusers.d/nix.conf"

/-- The `CreateUsersAndGroupsSysUsers` action. -/
structure CreateUsersAndGroupsSysUsers where
  nix_build_group_name : String
  nix_build_group_id : Nat
  nix_build_user_count : Nat
  nix_build_user_prefix : String
  nix_build_user_id_base : Nat
deriving DecidableEq, Repr

/-- Model of `CreateUsersAndGroupsSysUsers::plan`: copy the settings fields into the
action and wrap it.  The source performs no system interaction here; the
`StatefulAction::from` conversion (action/mod.rs, outside the excerpt)
wraps with state `Uncompleted` per the spec's planning convention. -/
def CreateUsersAndGroupsSysUsers.plan (w : World) (settings : CommonSettings) :
    Except ActionErrorKind (StatefulAction CreateUsersAndGroupsSysUsers) × World :=
  (.ok
    { action :=
        { nix_build_group_name := settings.nix_build_group_name
          nix_build_group_id := settings.nix_build_group_id
          nix_build_user_count := settings.nix_build_user_count
          nix_build_user_prefix := settings.nix_build_user_prefix
          nix_build_user_id_base := settings.nix_build_user_id_base }
      state := .Uncompleted },
    w)

/-- Model of `tracing_synopsis`: for a positive user count the synopsis displays the
UID range `nix_build_user_id_base + 1` through
`nix_build_user_id_base + nix_build_user_count`. -/
def CreateUsersAndGroupsSysUsers.tracing_synopsis
    (a : CreateUsersAndGroupsSysUsers) : String :=
  if a.nix_build_user_count = 0 then
    "Create " ++ SYSUSERS_PATH ++ " with build group " ++
      a.nix_build_group_name ++ " (GID " ++ toString a.nix_build_group_id ++ ")"
  else
    "Create " ++ SYSUSERS_PATH ++ " with build users " ++
      a.nix_build_user_prefix ++ "* (UID " ++
      toString (a.nix_build_user_id_base + 1) ++ "-" ++
      toString (a.nix_build_user_id_base + a.nix_build_user_count) ++
      ") and group " ++ a.nix_build_group_name ++ " (GID " ++
      toString a.nix_build_group_id ++ ")"

/-- The `u`/`m` line pair `execute` appends for user number `i`
(`1 ≤ i ≤ nix_build_user_count`), with
`uid = nix_build_user_id_base + i - 1`. -/
def CreateUsersAndGroupsSysUsers.userLinePair
    (a : CreateUsersAndGroupsSysUsers) (i : Nat) : String :=
  "u " ++ a.nix_build_user_prefix ++ toString i ++ " " ++
    toString (a.nix_build_user_id_base + i - 1) ++ ":" ++
    toString a.nix_build_group_id ++ " \"Nix build user " ++ toString i ++
    "\"\n" ++
  "m " ++ a.nix_build_user_prefix ++ toString i ++ " " ++
    a.nix_build_group_name ++ "\n"

/-- The user lines for users `1..=n`, in loop order. -/
def CreateUsersAndGroupsSysUsers.userLines
    (a : CreateUsersAndGroupsSysUsers) : Nat → String
  | 0 => ""
  | n + 1 => CreateUsersAndGroupsSysUsers.userLines a n ++ a.userLinePair (n + 1)

/-- The full sysusers file content `execute` writes to `SYSUSERS_PATH`. -/
def CreateUsersAndGroupsSysUsers.sysusersContent
    (a : CreateUsersAndGroupsSysUsers) : String :=
  "# Nix build group and users.\ng " ++ a.nix_build_group_name ++ " " ++
    toString a.nix_build_group_id ++ "\n" ++
  a.userLines a.nix_build_user_count

/-- The UIDs `execute` writes: for each `i` in `1..=nix_build_user_count`
the user line carries `nix_build_user_id_base + i - 1`. -/
def CreateUsersAndGroupsSysUsers.executeUserIds
    (a : CreateUsersAndGroupsSysUsers) : List Nat :=
  (List.range a.nix_build_user_count).map
    fun k => a.nix_build_user_id_base + (k + 1) - 1

/-- The UIDs covered by the range the synopsis displays:
`nix_build_user_id_base + 1` through
`nix_build_user_id_base + nix_build_user_count`. -/
def CreateUsersAndGroupsSysUsers.synopsisUserIds
    (a : CreateUsersAndGroupsSysUsers) : List Nat :=
  (List.range a.nix_build_user_count).map
    fun k => a.nix_build_user_id_base + 1 + k

/-! ## `EnableSystemdUnit` (src/action/linux/enable_systemd_unit.rs) -/

/-- The `EnableSystemdUnit` action. -/
structure EnableSystemdUnit where
  unit : String
deriving DecidableEq, Repr

/-- Model of `EnableSystemdUnit::plan`: construct the action with state
`Uncompleted`; no system interaction. -/
def EnableSystemdUnit.plan (w : World) (unit : String) :
    Except ActionErrorKind (StatefulAction EnableSystemdUnit) × World :=
  (.ok { action := { unit := unit }, state := .Uncompleted }, w)

/-! ## `Bootc` planner (src/planner/bootc.rs) -/

/-- The host operating systems distinguished by the embedding
(an abstraction of `target_lexicon::OperatingSystem`; the source matches
`Linux` against everything else). -/
inductive OperatingSystem where
  | linux
  | darwin
  | windows
  | freebsd
  | netbsd
  | unknown
deriving DecidableEq, Repr

/-- The `PlannerError` variant `platform_check` produces. -/
inductive PlannerError where
  | IncompatibleOperatingSystem (planner : String) (host_os : OperatingSystem)
deriving DecidableEq, Repr

/-- A `serde_json::Value` as it occurs in the settings maps. -/
inductive SettingsValue where
  | str (s : String)
  | num (n : Nat)
deriving DecidableEq, Repr

/-- The `Bootc` planner configuration. -/
structure Bootc where
  readonly_image : String
  overlay : String
  systemd_unit_dir : String
  settings : CommonSettings
deriving DecidableEq, Repr

/-- The `typetag_name` of `Bootc` (the `#[typetag::serde(name = "bootc")]`
tag). -/
def Bootc.typetag_name (_ : Bootc) : String := "bootc"

/-- Model of `Planner::default` for `Bootc`: the fixed path defaults together with
`CommonSettings::default()`.  The latter lives in settings.rs (outside the
excerpt) and may inspect the environment, so it is taken as a parameter. -/
def Bootc.defaultPlanner (cs : CommonSettings) : Bootc :=
  { readonly_image := "/usr/lib/nix-install"
    overlay := "/var/lib/nix-overlay"
    systemd_unit_dir := "/etc/systemd/system"
    settings := cs }

/-- Modelled from the spec: `CommonSettings::settings` (settings.rs, not in
the excerpt) — "a flat key/value snapshot of its configuration", one entry
per field. -/
def CommonSettings.settings (s : CommonSettings) : List (String × SettingsValue) :=
  [("nix_build_group_name", .str s.nix_build_group_name),
   ("nix_build_group_id", .num s.nix_build_group_id),
   ("nix_build_user_count", .num s.nix_build_user_count),
   ("nix_build_user_prefix", .str s.nix_build_user_prefix),
   ("nix_build_user_id_base", .num s.nix_build_user_id_base)]

/-- Model of `Bootc::settings`: extend the common snapshot with the three
planner-specific keys.  (Named `settingsMap` because `settings` is already
the field holding the `CommonSettings`.)  The Rust `HashMap` is represented
as an association list with distinct keys; only its key → value mapping is
meaningful. -/
def Bootc.settingsMap (b : Bootc) : List (String × SettingsValue) :=
  b.settings.settings ++
    [("readonly_image", .str b.readonly_image),
     ("overlay", .str b.overlay),
     ("systemd_unit_dir", .str b.systemd_unit_dir)]

/-- Model of `Bootc::configured_settings`: keep exactly the pairs of this planner's
settings map whose key is absent from, or bound to a different value in,
the default planner's settings map.  (The Rust builds a fresh `HashMap` by
inserting the pairs that pass this test; filtering preserves the same
key → value mapping.) -/
def Bootc.configured_settings (b : Bootc) (defaultCS : CommonSettings) :
    List (String × SettingsValue) :=
  b.settingsMap.filter fun e =>
    decide (lookupFirst (Bootc.defaultPlanner defaultCS).settingsMap e.1 ≠ some e.2)

/-- Model of `Bootc::platform_check`: `Ok` on Linux, otherwise
`PlannerError::IncompatibleOperatingSystem` carrying the planner tag and
the host operating system. -/
def Bootc.platform_check (b : Bootc) (host : OperatingSystem) :
    Except PlannerError Unit :=
  match host with
  | .linux => .ok ()
  | os => .error (.IncompatibleOperatingSystem b.typetag_name os)

/-- The `BootcError` enum (src/planner/bootc.rs). -/
inductive BootcError where
  | NotBootcContainer
  | PersistenceNotAvailable
  | BootcToolsNotAvailable
deriving DecidableEq, Repr

/-- Model of `HasExpectedErrors for BootcError`: every variant is classified as an
expected error (`Some(Box::new(self))`, modelled as `some self`). -/
def BootcError.expected : BootcError → Option BootcError
  | .NotBootcContainer => some .NotBootcContainer
  | .PersistenceNotAvailable => some .PersistenceNotAvailable
  | .BootcToolsNotAvailable => some .BootcToolsNotAvailable

/-! ## Path-order lemmas -/

theorem preOfNil (p : FsPath) : [] <+: p := ⟨p, rfl⟩

theorem preRefl (p : FsPath) : p <+: p := ⟨[], List.append_nil p⟩

theorem preOfAppend (p t : FsPath) : p <+: p ++ t := ⟨t, rfl⟩

theorem preAntisym {p q : FsPath} (h1 : p <+: q) (h2 : q <+: p) : p = q := by
  obtain ⟨t, ht⟩ := h1
  have hlen : t.length = 0 := by
    have l2 := h2.length_le
    have : q.length = p.length + t.length := by
      rw [← ht, List.length_append]
    omega
  have : t = [] := List.length_eq_zero.mp hlen
  subst this
  simpa using ht

theorem eqAppendDrop {p q : FsPath} (h : p <+: q) : p ++ q.drop p.length = q := by
  obtain ⟨t, rfl⟩ := h
  rw [List.drop_left]

theorem preConsIff {a : String} {x y : FsPath} : (a :: x) <+: (a :: y) ↔ x <+: y := by
  constructor
  · rintro ⟨t, ht⟩
    exact ⟨t, by simpa using ht⟩
  · rintro ⟨t, ht⟩
    exact ⟨t, by simp [ht]⟩

theorem preConsCases {b a : String} {x y : FsPath}
    (h : (b :: x) <+: (a :: y)) : b = a ∧ x <+: y := by
  obtain ⟨t, ht⟩ := h
  simp only [List.cons_append, List.cons.injEq] at ht
  exact ⟨ht.1, ⟨t, ht.2⟩⟩

theorem preAppendCases :
    ∀ (p q t : FsPath), q <+: p ++ t → q <+: p ∨ p <+: q := by
  intro p
  induction p with
  | nil => intro q t _; exact Or.inr (preOfNil q)
  | cons a p' ih =>
    intro q t hq
    cases q with
    | nil => exact Or.inl (preOfNil _)
    | cons b q' =>
      obtain ⟨hb, hq'⟩ := preConsCases hq
      subst hb
      rcases ih q' t hq' with h | h
      · exact Or.inl (preConsIff.mpr h)
      · exact Or.inr (preConsIff.mpr h)

theorem preComparable {p q r : FsPath} (h1 : p <+: r) (h2 : q <+: r) :
    p <+: q ∨ q <+: p := by
  obtain ⟨t, rfl⟩ := h1
  rcases preAppendCases p q t h2 with h | h
  · exact Or.inr h
  · exact Or.inl h

theorem isPrefixOfIff {p q : FsPath} : p.isPrefixOf q = true ↔ p <+: q := by
  induction p generalizing q with
  | nil => simp [List.isPrefixOf, preOfNil]
  | cons a p' ih =>
    cases q with
    | nil =>
      simp only [List.isPrefixOf, Bool.false_eq_true, false_iff]
      rintro ⟨t, ht⟩
      simp at ht
    | cons b q' =>
      simp only [List.isPrefixOf, Bool.and_eq_true, beq_iff_eq]
      constructor
      · rintro ⟨rfl, h⟩
        exact preConsIff.mpr (ih.mp h)
      · intro h
        obtain ⟨he, h2⟩ := preConsCases h
        exact ⟨he, ih.mpr h2⟩

theorem isPrefixOfFalse {p q : FsPath} (h : ¬ p <+: q) : p.isPrefixOf q = false := by
  cases hb : p.isPrefixOf q with
  | true => exact absurd (isPrefixOfIff.mp hb) h
  | false => rfl

theorem preDropLastOfNe {q p : FsPath} (h : q <+: p) (hne : q ≠ p) :
    q <+: p.dropLast := by
  obtain ⟨t, rfl⟩ := h
  have ht : t ≠ [] := by
    rintro rfl
    simp at hne
  rw [List.dropLast_append_of_ne_nil _ ht]
  exact preOfAppend _ _

theorem dropLastPre (p : FsPath) : p.dropLast <+: p := by
  cases hp : p with
  | nil => simp [preRefl]
  | cons a l =>
    rw [← hp]
    have hne : p ≠ [] := by simp [hp]
    exact ⟨[p.getLast hne], List.dropLast_append_getLast hne⟩

theorem dropLastNe {p : FsPath} (h : p ≠ []) : p.dropLast ≠ p := by
  intro heq
  have := congrArg List.length heq
  rw [List.length_dropLast] at this
  have : p.length ≠ 0 := by
    intro h0
    exact h (List.length_eq_zero.mp h0)
  omega

theorem preProperLength {q p : FsPath} (h : q <+: p) (hne : q ≠ p) :
    q.length < p.length := by
  have hle := h.length_le
  rcases Nat.lt_or_ge q.length p.length with hlt | hge
  · exact hlt
  · exfalso
    obtain ⟨t, ht⟩ := h
    have : p.length = q.length + t.length := by rw [← ht, List.length_append]
    have : t.length = 0 := by omega
    have : t = [] := List.length_eq_zero.mp this
    subst this
    exact hne (by simpa using ht)

/-! ## Association-list lookup lemmas -/

theorem lookupFirstEqNone {α β : Type} [DecidableEq α]
    (l : List (α × β)) (k : α) (h : ∀ e ∈ l, e.1 ≠ k) :
    lookupFirst l k = none := by
  induction l with
  | nil => rfl
  | cons e rest ih =>
    simp only [lookupFirst]
    rw [if_neg (h e (List.mem_cons_self e rest))]
    exact ih fun e' he' => h e' (List.mem_cons_of_mem e he')

theorem lookupFirstNeNoneOfMem {α β : Type} [DecidableEq α]
    {l : List (α × β)} {e : α × β} (he : e ∈ l) :
    lookupFirst l e.1 ≠ none := by
  induction l with
  | nil => cases he
  | cons e' rest ih =>
    simp only [lookupFirst]
    by_cases heq : e'.1 = e.1
    · simp [heq]
    · rw [if_neg heq]
      rcases List.mem_cons.mp he with rfl | hmem
      · exact absurd rfl heq
      · exact ih hmem

theorem lookupFirstMem {α β : Type} [DecidableEq α]
    {l : List (α × β)} {k : α} {v : β} (h : lookupFirst l k = some v) :
    (k, v) ∈ l := by
  induction l with
  | nil => cases h
  | cons e rest ih =>
    simp only [lookupFirst] at h
    by_cases heq : e.1 = k
    · rw [if_pos heq] at h
      have : e = (k, v) := by
        cases e
        simp_all
      rw [← this]
      exact List.mem_cons_self e rest
    · rw [if_neg heq] at h
      exact List.mem_cons_of_mem e (ih h)

theorem lookupFirstAppend {α β : Type} [DecidableEq α]
    (l1 l2 : List (α × β)) (k : α) :
    lookupFirst (l1 ++ l2) k = (lookupFirst l1 k).or (lookupFirst l2 k) := by
  induction l1 with
  | nil => simp [lookupFirst]
  | cons e rest ih =>
    simp only [List.cons_append, lookupFirst]
    by_cases heq : e.1 = k
    · simp [heq]
    · simp only [if_neg heq]
      exact ih

theorem lookupFirstConstMap {α β : Type} [DecidableEq α]
    (L : List α) (c : β) (k : α) :
    lookupFirst (L.map fun q => (q, c)) k = if k ∈ L then some c else none := by
  induction L with
  | nil => simp [lookupFirst]
  | cons q rest ih =>
    simp only [List.map_cons, lookupFirst]
    by_cases heq : q = k
    · subst heq
      simp
    · have hne : ¬ k = q := fun h => heq h.symm
      simp [heq, hne, ih]

theorem lookupFirstFilter {α β : Type} [DecidableEq α]
    (l : List (α × β)) (P : α × β → Bool) (k : α)
    (hnd : (l.map Prod.fst).Nodup) :
    lookupFirst (l.filter P) k =
      match lookupFirst l k with
      | some v => if P (k, v) then some v else none
      | none => none := by
  induction l with
  | nil => rfl
  | cons e rest ih =>
    have hnd' : (rest.map Prod.fst).Nodup := (List.nodup_cons.mp (by simpa using hnd)).2
    have hknotin : e.1 ∉ rest.map Prod.fst := (List.nodup_cons.mp (by simpa using hnd)).1
    by_cases heq : e.1 = k
    · subst heq
      have hrest : lookupFirst rest e.1 = none := by
        apply lookupFirstEqNone
        intro e' he' hk
        exact hknotin (hk ▸ List.mem_map_of_mem Prod.fst he')
      have he' : e = (e.1, e.2) := rfl
      by_cases hp : P e
      · rw [List.filter_cons_of_pos hp]
        simp only [lookupFirst, if_pos rfl]
        rw [← he'] at *
        simp [hp]
      · rw [List.filter_cons_of_neg (by simpa using hp)]
        have : lookupFirst (rest.filter P) e.1 = none := by
          apply lookupFirstEqNone
          intro e' he' hk
          exact hknotin (hk ▸ List.mem_map_of_mem Prod.fst (List.mem_of_mem_filter he'))
        rw [this]
        simp only [lookupFirst, if_pos rfl]
        rw [← he'] at *
        simp [hp]
    · by_cases hp : P e
      · rw [List.filter_cons_of_pos hp]
        simp only [lookupFirst, if_neg heq]
        exact ih hnd'
      · rw [List.filter_cons_of_neg (by simpa using hp)]
        simp only [lookupFirst, if_neg heq]
        exact ih hnd'

/-! ## Filesystem lemmas -/

theorem findConsEq (e : FsPath × Node) (l : FS) (q : FsPath) :
    FS.find (e :: l) q = if e.1 = q then some e.2 else FS.find l q := rfl

theorem FS.WF.ancDir {fs : FS} (hwf : fs.WF) {p q : FsPath}
    (hp : fs.find p ≠ none) (hq : q <+: p) (hne : q ≠ p) :
    fs.find q = some Node.dir := by
  cases hfind : fs.find p with
  | none => exact absurd hfind hp
  | some n =>
    have hmem : (p, n) ∈ fs := lookupFirstMem hfind
    exact hwf (p, n) hmem q ((List.mem_inits _ _).mpr hq) hne

theorem FS.WF.noEntriesBelow {fs : FS} (hwf : fs.WF) {d : FsPath}
    (hd : fs.find d = none) : ∀ e ∈ fs, ¬ d <+: e.1 := by
  intro e he hpre
  by_cases heq : d = e.1
  · exact lookupFirstNeNoneOfMem he (heq ▸ hd)
  · have := hwf.ancDir (lookupFirstNeNoneOfMem he) hpre heq
    rw [hd] at this
    cases this

theorem findNoneBelow {fs : FS} (hwf : fs.WF) {d : FsPath}
    (hd : fs.find d = none) {p : FsPath} (hp : d <+: p) :
    fs.find p = none := by
  apply lookupFirstEqNone
  intro e he hk
  exact hwf.noEntriesBelow hd e he (hk ▸ hp)

/-! ## Path-resolution (stat walk) lemmas -/

theorem initsChain (p : FsPath) : List.Pairwise (· <+: ·) p.inits := by
  induction p with
  | nil => simp
  | cons a l ih =>
    rw [List.inits_cons]
    refine List.Pairwise.cons (fun b _ => preOfNil b) ?_
    rw [List.pairwise_map]
    exact ih.imp fun h => preConsIff.mpr h

theorem walkMem {fs : FS} : ∀ {L : List FsPath} {q : FsPath},
    walkAncestors fs L = some q → q ∈ L ∧ fs.find q ≠ some Node.dir := by
  intro L
  induction L with
  | nil => intro q h; cases h
  | cons a rest ih =>
    intro q h
    rw [walkAncestors] at h
    by_cases hd : fs.find a = some Node.dir
    · rw [if_pos hd] at h
      obtain ⟨hm, hne⟩ := ih h
      exact ⟨List.mem_cons_of_mem a hm, hne⟩
    · rw [if_neg hd] at h
      injection h with h2
      subst h2
      exact ⟨List.mem_cons_self a rest, hd⟩

theorem walkNoneOfDirs {fs : FS} : ∀ {L : List FsPath},
    (∀ q ∈ L, fs.find q = some Node.dir) → walkAncestors fs L = none := by
  intro L
  induction L with
  | nil => intro _; rfl
  | cons a rest ih =>
    intro h
    rw [walkAncestors, if_pos (h a (List.mem_cons_self a rest))]
    exact ih fun q hq => h q (List.mem_cons_of_mem a hq)

theorem walkChainFile (fs : FS) (hwf : fs.WF) :
    ∀ (L : List FsPath), List.Pairwise (· <+: ·) L →
      ∀ q ∈ L, (∃ s, fs.find q = some (Node.file s)) →
      ∃ q2 s2, walkAncestors fs L = some q2 ∧
        fs.find q2 = some (Node.file s2) := by
  intro L
  induction L with
  | nil => intro _ q hq _; cases hq
  | cons a rest ih =>
    intro hpw q hq hfile
    obtain ⟨s, hs⟩ := hfile
    rcases List.mem_cons.mp hq with rfl | hmem
    · refine ⟨q, s, ?_, hs⟩
      rw [walkAncestors, if_neg (by rw [hs]; simp)]
    · have hpc := List.pairwise_cons.mp hpw
      rcases eq_or_ne a q with rfl | hne
      · refine ⟨a, s, ?_, hs⟩
        rw [walkAncestors, if_neg (by rw [hs]; simp)]
      · have haq : a <+: q := hpc.1 q hmem
        have hadir : fs.find a = some Node.dir :=
          hwf.ancDir (p := q) (by simp [hs]) haq hne
        rw [walkAncestors, if_pos hadir]
        exact ih hpc.2 q hmem ⟨s, hs⟩

theorem firstBadMem {fs : FS} {p q : FsPath}
    (h : firstBadAncestor fs p = some q) :
    q <+: p ∧ q ≠ p ∧ fs.find q ≠ some Node.dir := by
  rw [firstBadAncestor] at h
  obtain ⟨hm, hne⟩ := walkMem h
  have hmf := List.mem_filter.mp hm
  exact ⟨(List.mem_inits _ _).mp hmf.1, by simpa using hmf.2, hne⟩

theorem firstBadNoneOfAncDirs {fs : FS} {p : FsPath}
    (h : ∀ q, q <+: p → q ≠ p → fs.find q = some Node.dir) :
    firstBadAncestor fs p = none := by
  rw [firstBadAncestor]
  apply walkNoneOfDirs
  intro q hq
  have hmf := List.mem_filter.mp hq
  exact h q ((List.mem_inits _ _).mp hmf.1) (by simpa using hmf.2)

theorem metadataEqOfAncDirs {fs : FS} {p : FsPath}
    (h : ∀ q, q <+: p → q ≠ p → fs.find q = some Node.dir) :
    fs.metadata p = fs.find p := by
  rw [FS.metadata, firstBadNoneOfAncDirs h]

theorem metadataNoneOfFindNone {fs : FS} {p : FsPath}
    (h : fs.find p = none) : fs.metadata p = none := by
  rw [FS.metadata]
  cases hfb : firstBadAncestor fs p with
  | none => exact h
  | some q => rfl

theorem tryExistsSomeOfAncDirs {fs : FS} {p : FsPath}
    (h : ∀ q, q <+: p → q ≠ p → fs.find q = some Node.dir) :
    fs.try_exists p = some (fs.find p).isSome := by
  rw [FS.try_exists, firstBadNoneOfAncDirs h]

theorem tryExistsFalseOfNoFiles {fs : FS} {p : FsPath}
    (hp : fs.find p = none)
    (h : ∀ q, q <+: p → isSomeFile (fs.find q) = false) :
    fs.try_exists p = some false := by
  cases hfb : firstBadAncestor fs p with
  | none =>
    rw [FS.try_exists, hfb, hp]
    rfl
  | some q =>
    obtain ⟨hq, hne, hnd⟩ := firstBadMem hfb
    have hnf := h q hq
    have hred : fs.try_exists p =
        (match fs.find q with
          | some (Node.file _) => none
          | _ => some false) := by
      rw [FS.try_exists, hfb]
    rw [hred]
    cases hn : fs.find q with
    | none => rfl
    | some n =>
      cases n with
      | dir => rfl
      | file s =>
        rw [hn] at hnf
        cases hnf

theorem tryExistsNoneOfFileAncestor {fs : FS} {p : FsPath} (hwf : fs.WF)
    {q : FsPath} {s : String} (hq : q <+: p) (hne : q ≠ p)
    (hfile : fs.find q = some (Node.file s)) :
    fs.try_exists p = none := by
  have hchain : List.Pairwise (· <+: ·)
      (p.inits.filter fun x => decide (x ≠ p)) :=
    (initsChain p).sublist (List.filter_sublist p.inits)
  have hmem : q ∈ p.inits.filter fun x => decide (x ≠ p) := by
    rw [List.mem_filter]
    exact ⟨(List.mem_inits _ _).mpr hq, by simpa using hne⟩
  obtain ⟨q2, s2, hwalk, hfile2⟩ :=
    walkChainFile fs hwf _ hchain q hmem ⟨s, hfile⟩
  have hred : fs.try_exists p =
      (match fs.find q2 with
        | some (Node.file _) => none
        | _ => some false) := by
    rw [FS.try_exists, firstBadAncestor, hwalk]
  rw [hred, hfile2]

theorem findRenameMap (g : FS) (s d : FsPath)
    (hnd : ∀ e ∈ g, ¬ d <+: e.1) (q : FsPath) :
    FS.find (g.renameMap s d) q =
      if d <+: q then g.find (s ++ q.drop d.length)
      else if s <+: q then none
      else g.find q := by
  induction g with
  | nil =>
    by_cases hdq : d <+: q
    · simp [FS.renameMap, hdq, FS.find, lookupFirst]
    · by_cases hsq : s <+: q <;>
        simp [FS.renameMap, hdq, hsq, FS.find, lookupFirst]
  | cons e g' ih =>
    have hndE : ¬ d <+: e.1 := hnd e (List.mem_cons_self e g')
    have IH := ih fun e' he' => hnd e' (List.mem_cons_of_mem e he')
    by_cases hse : s <+: e.1
    · have hmap : FS.renameMap (e :: g') s d =
          (d ++ e.1.drop s.length, e.2) :: FS.renameMap g' s d := by
        simp only [FS.renameMap, List.map_cons, if_pos (isPrefixOfIff.mpr hse)]
      rw [hmap, findConsEq]
      by_cases hkey : d ++ e.1.drop s.length = q
      · have hdq : d <+: q := hkey ▸ preOfAppend d _
        have hsplice : s ++ q.drop d.length = e.1 := by
          rw [← hkey, List.drop_left]
          exact eqAppendDrop hse
        rw [if_pos hkey, if_pos hdq, hsplice, findConsEq, if_pos rfl]
      · rw [if_neg hkey, IH]
        by_cases hdq : d <+: q
        · have hne2 : e.1 ≠ s ++ q.drop d.length := by
            intro heq
            apply hkey
            have hdr : e.1.drop s.length = q.drop d.length := by
              rw [heq, List.drop_left]
            rw [hdr, eqAppendDrop hdq]
          rw [if_pos hdq, if_pos hdq, findConsEq, if_neg hne2]
        · by_cases hsq : s <+: q
          · rw [if_neg hdq, if_neg hdq, if_pos hsq, if_pos hsq]
          · have hne3 : e.1 ≠ q := fun hh => hsq (hh ▸ hse)
            rw [if_neg hdq, if_neg hdq, if_neg hsq, if_neg hsq, findConsEq,
              if_neg hne3]
    · have hmap : FS.renameMap (e :: g') s d = e :: FS.renameMap g' s d := by
        simp only [FS.renameMap, List.map_cons]
        rw [if_neg (by simp [isPrefixOfFalse hse])]
      rw [hmap, findConsEq]
      by_cases hkey : e.1 = q
      · have hdq : ¬ d <+: q := fun hh => hndE (hkey.symm ▸ hh)
        have hsq : ¬ s <+: q := fun hh => hse (hkey.symm ▸ hh)
        rw [if_neg hdq, if_neg hsq, findConsEq, if_pos hkey, if_pos hkey]
      · rw [if_neg hkey, IH]
        by_cases hdq : d <+: q
        · have hne2 : e.1 ≠ s ++ q.drop d.length := by
            intro heq
            apply hse
            rw [heq]
            exact preOfAppend s _
          rw [if_pos hdq, if_pos hdq, findConsEq, if_neg hne2]
        · by_cases hsq : s <+: q
          · rw [if_neg hdq, if_neg hdq, if_pos hsq, if_pos hsq]
          · rw [if_neg hdq, if_neg hdq, if_neg hsq, if_neg hsq, findConsEq,
              if_neg hkey]

theorem parentEqSome {p : FsPath} (h : p ≠ []) :
    FsPath.parent p = some p.dropLast := by
  cases p with
  | nil => exact absurd rfl h
  | cons a l => rfl

theorem checkOkOfDir {fs : FS} {src dest : FsPath}
    (hancS : ∀ q, q <+: src → q ≠ src → fs.find q = some Node.dir)
    (hsrc : fs.find src = some Node.dir)
    (hdest : fs.find dest = none)
    (hnofD : ∀ q, q <+: dest → isSomeFile (fs.find q) = false) :
    MoveDirectory.check_src_and_dest fs src dest = .ok () := by
  rw [MoveDirectory.check_src_and_dest, metadataEqOfAncDirs hancS, hsrc,
    tryExistsFalseOfNoFiles hdest hnofD]
  rfl

theorem ancestorsAreDirsIff {fs : FS} {p : FsPath} :
    ancestorsAreDirs fs p = true ↔
      ∀ q, q <+: p → q ≠ p → fs.find q = some Node.dir := by
  simp only [ancestorsAreDirs, List.all_eq_true]
  constructor
  · intro h q hq hne
    have := h q ((List.mem_inits _ _).mpr hq)
    simpa [hne] using this
  · intro h q hq
    rcases eq_or_ne q p with rfl | hne
    · simp
    · simp [h q ((List.mem_inits _ _).mp hq) hne]

theorem renameSome {fs : FS} {src dest : FsPath}
    (hsrc : fs.find src = some Node.dir)
    (hdest : fs.find dest = none)
    (hnp : ¬ src <+: dest)
    (hanc : ∀ q, q <+: dest → q ≠ dest → fs.find q = some Node.dir) :
    fs.rename src dest = some (fs.renameMap src dest) := by
  have hne : src ≠ dest := by
    intro h
    rw [h, hdest] at hsrc
    cases hsrc
  unfold FS.rename
  rw [if_neg (by simp [hsrc]), if_neg hne,
    if_neg (by simp [isPrefixOfFalse hnp]),
    if_neg (by simp [ancestorsAreDirsIff.mpr hanc]),
    if_neg (by simp [hdest])]

theorem renameStepSome {fs : FS} {src dest : FsPath}
    (hsrc : fs.find src = some Node.dir)
    (hdest : fs.find dest = none)
    (hnp : ¬ src <+: dest)
    (hanc : ∀ q, q <+: dest → q ≠ dest → fs.find q = some Node.dir) :
    renameStep fs src dest = (.ok (), fs.renameMap src dest) := by
  rw [renameStep, renameSome hsrc hdest hnp hanc]

theorem notDestPreSrc {fs : FS} {src dest : FsPath} (hwf : fs.WF)
    (hsrc : fs.find src = some Node.dir) (hdest : fs.find dest = none) :
    ¬ dest <+: src := by
  intro h
  rcases eq_or_ne dest src with rfl | hne
  · rw [hdest] at hsrc
    cases hsrc
  · have := hwf.ancDir (p := src) (by simp [hsrc]) h hne
    rw [hdest] at this
    cases this

theorem srcNeNil {src dest : FsPath} (hnp : ¬ src <+: dest) : src ≠ [] := by
  rintro rfl
  exact hnp (preOfNil dest)

theorem destNeNil {fs : FS} {src dest : FsPath} (hwf : fs.WF)
    (hsrc : fs.find src = some Node.dir) (hdest : fs.find dest = none)
    (hnp : ¬ src <+: dest) : dest ≠ [] := by
  rintro rfl
  have hsne : src ≠ [] := srcNeNil hnp
  have := hwf.ancDir (p := src) (by simp [hsrc]) (preOfNil src)
    (fun h => hsne h.symm)
  rw [hdest] at this
  cases this

theorem executeNormal (fs : FS) (src dest : FsPath)
    (hwf : fs.WF)
    (hsrc : fs.find src = some Node.dir)
    (hdest : fs.find dest = none)
    (hnp : ¬ src <+: dest)
    (hpath : ∀ q, q <+: dest → isSomeFile (fs.find q) = false) :
    ∃ fs1 : FS,
      MoveDirectory.execute fs { src := src, dest := dest } =
        (.ok (), fs1.renameMap src dest) ∧
      (∀ q, fs.find q ≠ none → fs1.find q = fs.find q) ∧
      (∀ q, q <+: dest → q ≠ dest → fs1.find q = some Node.dir) ∧
      (∀ q, fs.find q = none → (¬ q <+: dest ∨ q = dest) → fs1.find q = none) ∧
      (∀ e ∈ fs1, ¬ dest <+: e.1) := by
  have hdne : dest ≠ [] := destNeNil hwf hsrc hdest hnp
  have hancS : ∀ q, q <+: src → q ≠ src → fs.find q = some Node.dir :=
    fun q hq hne => hwf.ancDir (by simp [hsrc]) hq hne
  have hchk := checkOkOfDir hancS hsrc hdest hpath
  set par := dest.dropLast with hpar
  have hparPre : par <+: dest := dropLastPre dest
  have hdlen : dest.length ≠ 0 := fun h0 => hdne (List.length_eq_zero.mp h0)
  by_cases hfp : (fs.find par).isSome = true
  · -- destination parent already exists: no directory creation happens
    have hP2 : ∀ q, q <+: dest → q ≠ dest → fs.find q = some Node.dir := by
      intro q hq hne
      have hqpar : q <+: par := preDropLastOfNe hq hne
      cases hn : fs.find q with
      | some n =>
        cases n with
        | dir => rfl
        | file s =>
          have hb := hpath q hq
          rw [hn] at hb
          cases hb
      | none =>
        rcases eq_or_ne q par with heq | hne2
        · rw [heq] at hn
          rw [hn] at hfp
          cases hfp
        · have hdir := hwf.ancDir (p := par)
            (fun hh => by rw [hh] at hfp; cases hfp) hqpar hne2
          rw [hn] at hdir
          cases hdir
    have htp : fs.try_exists par = some true := by
      obtain ⟨n, hn⟩ := Option.isSome_iff_exists.mp hfp
      have hancP : ∀ q, q <+: par → q ≠ par → fs.find q = some Node.dir :=
        fun q hq hne => hwf.ancDir (by simp [hn]) hq hne
      rw [tryExistsSomeOfAncDirs hancP, hn]
      rfl
    refine ⟨fs, ?_, fun q _ => rfl, hP2, fun q h _ => h, hwf.noEntriesBelow hdest⟩
    simp only [MoveDirectory.execute, hchk, parentEqSome hdne]
    rw [htp]
    exact renameStepSome hsrc hdest hnp hP2
  · -- destination parent missing: create_dir_all adds the missing ancestors
    have hguard : (par.inits.all fun q => !isSomeFile (fs.find q)) = true := by
      rw [List.all_eq_true]
      intro q hq
      have hqd : q <+: dest := ((List.mem_inits _ _).mp hq).trans hparPre
      simp [hpath q hqd]
    set news := ((par.inits.filter fun q => decide (fs.find q = none)).map
      fun q => (q, Node.dir)) with hnews
    have hcreate : create_dir_all fs par = some (fs ++ news) := by
      rw [create_dir_all, if_pos hguard]
    set fs1 := fs ++ news with hfs1
    have hfindN : ∀ q, fs1.find q = (fs.find q).or (lookupFirst news q) :=
      fun q => lookupFirstAppend fs news q
    have hP1 : ∀ q, fs.find q ≠ none → fs1.find q = fs.find q := by
      intro q h
      rw [hfindN]
      cases hq : fs.find q with
      | none => exact absurd hq h
      | some n => rfl
    have hP2 : ∀ q, q <+: dest → q ≠ dest → fs1.find q = some Node.dir := by
      intro q hq hne
      have hqpar : q <+: par := preDropLastOfNe hq hne
      cases hn : fs.find q with
      | some n =>
        cases n with
        | dir => rw [hP1 q (by simp [hn]), hn]
        | file s =>
          have hb := hpath q hq
          rw [hn] at hb
          cases hb
      | none =>
        rw [hfindN, hn, hnews, lookupFirstConstMap]
        have hmem : q ∈ par.inits.filter (fun q => decide (fs.find q = none)) := by
          rw [List.mem_filter]
          exact ⟨(List.mem_inits _ _).mpr hqpar, by simp [hn]⟩
        simp [hmem]
    have hP3 : ∀ q, fs.find q = none → (¬ q <+: dest ∨ q = dest) →
        fs1.find q = none := by
      intro q hn hcond
      rw [hfindN, hn, hnews, lookupFirstConstMap]
      have hnot : q ∉ par.inits.filter (fun q => decide (fs.find q = none)) := by
        intro hmem
        have hq : q <+: par := (List.mem_inits _ _).mp (List.mem_of_mem_filter hmem)
        have hqd : q <+: dest := hq.trans hparPre
        have hqnd : q ≠ dest := by
          rintro rfl
          have hlen := hq.length_le
          rw [hpar, List.length_dropLast] at hlen
          omega
        rcases hcond with hc | hc
        · exact hc hqd
        · exact hqnd hc
      simp [hnot]
    have hnd1 : ∀ e ∈ fs1, ¬ dest <+: e.1 := by
      intro e he hpre2
      rcases List.mem_append.mp he with hf | hn
      · exact hwf.noEntriesBelow hdest e hf hpre2
      · rw [hnews] at hn
        obtain ⟨q, hq, rfl⟩ := List.mem_map.mp hn
        have hq2 : q <+: par := (List.mem_inits _ _).mp (List.mem_of_mem_filter hq)
        have h1 : dest.length ≤ q.length := hpre2.length_le
        have h2 := hq2.length_le
        rw [hpar, List.length_dropLast] at h2
        omega
    have hsrc1 : fs1.find src = some Node.dir := by
      rw [hP1 src (by simp [hsrc]), hsrc]
    have hdest1 : fs1.find dest = none := hP3 dest hdest (Or.inr rfl)
    have htp : fs.try_exists par = some false := by
      apply tryExistsFalseOfNoFiles
      · cases hfpar : fs.find par with
        | none => rfl
        | some n =>
          rw [hfpar] at hfp
          exact absurd rfl hfp
      · intro q hq
        exact hpath q (hq.trans hparPre)
    refine ⟨fs1, ?_, hP1, hP2, hP3, hnd1⟩
    simp only [MoveDirectory.execute, hchk, parentEqSome hdne]
    rw [htp, hcreate]
    exact renameStepSome hsrc1 hdest1 hnp hP2

theorem revertAfterExecute (fs fs1 : FS) (src dest : FsPath)
    (hwf : fs.WF)
    (hsrc : fs.find src = some Node.dir)
    (hdest : fs.find dest = none)
    (hnp : ¬ src <+: dest)
    (hP1 : ∀ q, fs.find q ≠ none → fs1.find q = fs.find q)
    (hP2 : ∀ q, q <+: dest → q ≠ dest → fs1.find q = some Node.dir)
    (hP3 : ∀ q, fs.find q = none → (¬ q <+: dest ∨ q = dest) → fs1.find q = none)
    (hnd1 : ∀ e ∈ fs1, ¬ dest <+: e.1) :
    MoveDirectory.revert (fs1.renameMap src dest) { src := src, dest := dest } =
      (.ok (), (fs1.renameMap src dest).renameMap dest src) ∧
    (∀ p, src <+: p →
      FS.find ((fs1.renameMap src dest).renameMap dest src) p = fs.find p) ∧
    (∀ p, dest <+: p →
      FS.find ((fs1.renameMap src dest).renameMap dest src) p = none) := by
  have hds : ¬ dest <+: src := notDestPreSrc hwf hsrc hdest
  have hsne : src ≠ [] := srcNeNil hnp
  have hslen : src.length ≠ 0 := fun h0 => hsne (List.length_eq_zero.mp h0)
  have hfindE := findRenameMap fs1 src dest hnd1
  have hEdest : (fs1.renameMap src dest).find dest = some Node.dir := by
    rw [hfindE dest, if_pos (preRefl dest), List.drop_length, List.append_nil,
      hP1 src (by simp [hsrc]), hsrc]
  have hEsrc : (fs1.renameMap src dest).find src = none := by
    rw [hfindE src, if_neg hds, if_pos (preRefl src)]
  have hancR : ∀ q, q <+: src → q ≠ src →
      (fs1.renameMap src dest).find q = some Node.dir := by
    intro q hq hne
    have h1 : ¬ dest <+: q := fun hh => hds (hh.trans hq)
    have h2 : ¬ src <+: q := fun hh => hne (preAntisym hh hq).symm
    rw [hfindE q, if_neg h1, if_neg h2]
    have hdir := hwf.ancDir (p := src) (by simp [hsrc]) hq hne
    rw [hP1 q (by simp [hdir]), hdir]
  have hancD : ∀ q, q <+: dest → q ≠ dest →
      (fs1.renameMap src dest).find q = some Node.dir := by
    intro q hq hne
    have h1 : ¬ dest <+: q := fun hh => hne (preAntisym hq hh)
    have h2 : ¬ src <+: q := fun hh => hnp (hh.trans hq)
    rw [hfindE q, if_neg h1, if_neg h2]
    exact hP2 q hq hne
  have hnofS : ∀ q, q <+: src →
      isSomeFile ((fs1.renameMap src dest).find q) = false := by
    intro q hq
    rcases eq_or_ne q src with rfl | hne
    · rw [hEsrc]
      rfl
    · rw [hancR q hq hne]
      rfl
  have hchkR : MoveDirectory.check_src_and_dest
      (fs1.renameMap src dest) dest src = .ok () :=
    checkOkOfDir hancD hEdest hEsrc hnofS
  have hEspar : (fs1.renameMap src dest).try_exists src.dropLast = some true := by
    have hancP : ∀ q, q <+: src.dropLast → q ≠ src.dropLast →
        (fs1.renameMap src dest).find q = some Node.dir := by
      intro q hq _
      have hqs : q <+: src := hq.trans (dropLastPre src)
      have hqns : q ≠ src := by
        intro hh
        subst hh
        have hlen := hq.length_le
        rw [List.length_dropLast] at hlen
        omega
      exact hancR q hqs hqns
    rw [tryExistsSomeOfAncDirs hancP]
    have h1 : ¬ dest <+: src.dropLast := fun hh => hds (hh.trans (dropLastPre src))
    have h2 : ¬ src <+: src.dropLast := by
      intro hh
      have hlen := hh.length_le
      rw [List.length_dropLast] at hlen
      omega
    rw [hfindE _, if_neg h2, if_neg h1]
    have hdir := hwf.ancDir (p := src) (by simp [hsrc]) (dropLastPre src)
      (dropLastNe hsne)
    rw [hP1 _ (by simp [hdir]), hdir]
    rfl
  have hndE : ∀ e ∈ fs1.renameMap src dest, ¬ src <+: e.1 := by
    intro e he hpre2
    rw [FS.renameMap] at he
    obtain ⟨e0, he0, heq⟩ := List.mem_map.mp he
    by_cases hb : src.isPrefixOf e0.1 = true
    · rw [if_pos hb] at heq
      subst heq
      have hmm : src <+: dest ++ e0.1.drop src.length := hpre2
      rcases preAppendCases dest src _ hmm with h | h
      · exact hnp h
      · exact hds h
    · rw [if_neg hb] at heq
      subst heq
      exact hb (isPrefixOfIff.mpr hpre2)
  have hfind2 := findRenameMap (fs1.renameMap src dest) dest src hndE
  refine ⟨?_, ?_, ?_⟩
  · simp only [MoveDirectory.revert, hchkR, parentEqSome hsne]
    rw [hEspar]
    exact renameStepSome hEdest hEsrc hds hancR
  · intro p hp
    rw [hfind2 p, if_pos hp, hfindE (dest ++ p.drop src.length),
      if_pos (preOfAppend dest _), List.drop_left, eqAppendDrop hp]
    cases hq : fs.find p with
    | some n => rw [hP1 p (by simp [hq]), hq]
    | none => exact hP3 p hq (Or.inl fun hh => hnp (hp.trans hh))
  · intro p hp
    have hnsp : ¬ src <+: p := by
      intro hh
      rcases preComparable hh hp with h | h
      · exact hnp h
      · exact hds h
    rw [hfind2 p, if_neg hnsp, if_pos hp]

theorem executeFailsOnFileAncestor (fs : FS) (src dest : FsPath)
    (hwf : fs.WF)
    (hsrc : fs.find src = some Node.dir)
    (hdest : fs.find dest = none)
    (hbad : ∃ q, q <+: dest ∧ isSomeFile (fs.find q) = true) :
    (MoveDirectory.execute fs { src := src, dest := dest }).2 = fs := by
  obtain ⟨q, hq, hfile⟩ := hbad
  have hqne : q ≠ dest := by
    rintro rfl
    rw [hdest] at hfile
    cases hfile
  obtain ⟨s, hfs⟩ : ∃ s, fs.find q = some (Node.file s) := by
    cases hn : fs.find q with
    | none =>
      rw [hn] at hfile
      cases hfile
    | some n =>
      cases n with
      | file s => exact ⟨s, rfl⟩
      | dir =>
        rw [hn] at hfile
        cases hfile
  have htry : fs.try_exists dest = none :=
    tryExistsNoneOfFileAncestor hwf hq hqne hfs
  have hmeta : fs.metadata src = fs.find src :=
    metadataEqOfAncDirs fun q2 hq2 hne2 => hwf.ancDir (by simp [hsrc]) hq2 hne2
  have hchk : MoveDirectory.check_src_and_dest fs src dest =
      .error (.GettingMetadata dest) := by
    rw [MoveDirectory.check_src_and_dest, hmeta, hsrc, htry]
  simp [MoveDirectory.execute, hchk]

/-- C4 (amended): for every well-formed filesystem in which the source is a
directory, the destination is absent, and the source is not a path-prefix
of the destination, running `execute` and then `revert` restores the
pre-execute observable state: every path below the source holds exactly
what it held before, and every path below the destination is absent. -/
theorem moveDirectoryRoundTrip (fs : FS) (src dest : FsPath)
    (hwf : fs.WF)
    (hsrc : fs.find src = some Node.dir)
    (hdest : fs.find dest = none)
    (hnp : ¬ src <+: dest) :
    moveRoundTripOK fs src dest := by
  by_cases hpath : ∀ q, q <+: dest → isSomeFile (fs.find q) = false
  · obtain ⟨fs1, hexec, hP1, hP2, hP3, hnd1⟩ :=
      executeNormal fs src dest hwf hsrc hdest hnp hpath
    obtain ⟨hrev, hc1, hc2⟩ :=
      revertAfterExecute fs fs1 src dest hwf hsrc hdest hnp hP1 hP2 hP3 hnd1
    have hg : (MoveDirectory.execute fs { src := src, dest := dest }).2 =
        fs1.renameMap src dest := by rw [hexec]
    have hgR : (MoveDirectory.revert (fs1.renameMap src dest)
        { src := src, dest := dest }).2 =
        (fs1.renameMap src dest).renameMap dest src := by rw [hrev]
    constructor
    · intro p hp
      rw [hg, hgR]
      exact hc1 p hp
    · intro p hp
      rw [hg, hgR]
      exact hc2 p hp
  · have hbad : ∃ q, q <+: dest ∧ isSomeFile (fs.find q) = true := by
      push_neg at hpath
      obtain ⟨q, hq, hne⟩ := hpath
      refine ⟨q, hq, ?_⟩
      cases hb : isSomeFile (fs.find q) with
      | true => rfl
      | false => exact absurd hb hne
    have hg := executeFailsOnFileAncestor fs src dest hwf hsrc hdest hbad
    have hgR : (MoveDirectory.revert fs { src := src, dest := dest }).2 = fs := by
      simp [MoveDirectory.revert, MoveDirectory.check_src_and_dest,
        metadataNoneOfFindNone hdest]
    constructor
    · intro p hp
      rw [hg, hgR]
    · intro p hp
      rw [hg, hgR]
      exact findNoneBelow hwf hdest hp

/-- C4 counterexample: with `src = /a` a directory and `dest = /a/b/c`
absent (so the claim's preconditions hold), `execute` first creates the
missing parent `/a/b` inside the source subtree and then fails at the
rename (rename(2) rejects moving a directory below itself), and `revert`
fails at its own precondition check; the leftover `/a/b` directory means
the source subtree does not regain its original contents, refuting the
claim as stated. -/
theorem moveRoundTripCounterexample :
    FS.WF [([], Node.dir), (["a"], Node.dir)] ∧
    FS.find [([], Node.dir), (["a"], Node.dir)] ["a"] = some Node.dir ∧
    FS.find [([], Node.dir), (["a"], Node.dir)] ["a", "b", "c"] = none ∧
    ¬ moveRoundTripOK [([], Node.dir), (["a"], Node.dir)] ["a"] ["a", "b", "c"] := by
  refine ⟨by decide, by decide, by decide, ?_⟩
  intro h
  have hcontra := h.1 ["a", "b"] (by decide)
  revert hcontra
  decide

/-- C4 witness: the round-trip theorem applied to the concrete filesystem
`{/ ↦ dir, /a ↦ dir, /a/x ↦ file "hi"}` with `src = /a`, `dest = /b`. -/
theorem moveDirectoryRoundTripWitness :
    FS.WF [([], Node.dir), (["a"], Node.dir), (["a", "x"], Node.file "hi")] ∧
    FS.find [([], Node.dir), (["a"], Node.dir), (["a", "x"], Node.file "hi")]
      ["a"] = some Node.dir ∧
    FS.find [([], Node.dir), (["a"], Node.dir), (["a", "x"], Node.file "hi")]
      ["b"] = none ∧
    ¬ (["a"] : FsPath) <+: ["b"] ∧
    moveRoundTripOK [([], Node.dir), (["a"], Node.dir), (["a", "x"], Node.file "hi")]
      ["a"] ["b"] :=
  ⟨by decide, by decide, by decide, by decide,
    moveDirectoryRoundTrip _ ["a"] ["b"] (by decide) (by decide) (by decide)
      (by decide)⟩

/-- C5 (amended): for every well-formed filesystem in which the source is
a directory, the destination is absent, the source is not a path-prefix of
the destination, and no ancestor of the destination is a regular file,
`execute` succeeds: the missing parent directories of the destination are
created, the move is performed by the single rename step, and afterwards
the source subtree is absent while the destination subtree holds exactly
the old source subtree. -/
theorem moveDirectoryExecuteOk (fs : FS) (src dest : FsPath)
    (hwf : fs.WF)
    (hsrc : fs.find src = some Node.dir)
    (hdest : fs.find dest = none)
    (hnp : ¬ src <+: dest)
    (hpath : ∀ q ∈ dest.inits, isSomeFile (fs.find q) = false) :
    moveExecuteOK fs src dest := by
  have hpath' : ∀ q, q <+: dest → isSomeFile (fs.find q) = false :=
    fun q hq => hpath q ((List.mem_inits _ _).mpr hq)
  obtain ⟨fs1, hexec, hP1, hP2, hP3, hnd1⟩ :=
    executeNormal fs src dest hwf hsrc hdest hnp hpath'
  have hds : ¬ dest <+: src := notDestPreSrc hwf hsrc hdest
  have hfindE := findRenameMap fs1 src dest hnd1
  have hg : (MoveDirectory.execute fs { src := src, dest := dest }).2 =
      fs1.renameMap src dest := by rw [hexec]
  refine ⟨by rw [hexec], ?_, ?_, ?_⟩
  · intro p hp
    rw [hg, hfindE p]
    have hnd : ¬ dest <+: p := by
      intro hh
      rcases preComparable hp hh with h | h
      · exact hnp h
      · exact hds h
    rw [if_neg hnd, if_pos hp]
  · intro t
    rw [hg, hfindE (dest ++ t), if_pos (preOfAppend dest t), List.drop_left]
    cases hq : fs.find (src ++ t) with
    | some n => rw [hP1 _ (by simp [hq]), hq]
    | none =>
      apply hP3 _ hq
      left
      intro hh
      exact hnp ((preOfAppend src t).trans hh)
  · intro q hq hne
    rw [hg, hfindE q]
    have h1 : ¬ dest <+: q := fun hh => hne (preAntisym hq hh)
    have h2 : ¬ src <+: q := fun hh => hnp (hh.trans hq)
    rw [if_neg h1, if_neg h2]
    exact hP2 q hq hne

/-- C5 counterexample: with `src = /a` a directory and `dest = /a/b`
absent, the claim's stated preconditions hold but `execute` fails (the
rename of a directory below itself is rejected), so the destination never
comes to hold the moved directory, refuting the claim as stated. -/
theorem moveExecuteCounterexample :
    FS.WF [([], Node.dir), (["a"], Node.dir)] ∧
    FS.find [([], Node.dir), (["a"], Node.dir)] ["a"] = some Node.dir ∧
    FS.find [([], Node.dir), (["a"], Node.dir)] ["a", "b"] = none ∧
    ¬ moveExecuteOK [([], Node.dir), (["a"], Node.dir)] ["a"] ["a", "b"] := by
  refine ⟨by decide, by decide, by decide, ?_⟩
  intro h
  have hcontra := h.1
  revert hcontra
  decide

/-- C5 witness: the execute theorem applied to
`{/ ↦ dir, /a ↦ dir, /a/f ↦ file "x"}` with `src = /a`, `dest = /c/d`
(the parent `/c` is missing and gets created). -/
theorem moveDirectoryExecuteOkWitness :
    FS.WF [([], Node.dir), (["a"], Node.dir), (["a", "f"], Node.file "x")] ∧
    FS.find [([], Node.dir), (["a"], Node.dir), (["a", "f"], Node.file "x")]
      ["a"] = some Node.dir ∧
    FS.find [([], Node.dir), (["a"], Node.dir), (["a", "f"], Node.file "x")]
      ["c", "d"] = none ∧
    ¬ (["a"] : FsPath) <+: ["c", "d"] ∧
    (∀ q ∈ (["c", "d"] : FsPath).inits,
      isSomeFile (FS.find
        [([], Node.dir), (["a"], Node.dir), (["a", "f"], Node.file "x")] q) = false) ∧
    moveExecuteOK [([], Node.dir), (["a"], Node.dir), (["a", "f"], Node.file "x")]
      ["a"] ["c", "d"] :=
  ⟨by decide, by decide, by decide, by decide, by decide,
    moveDirectoryExecuteOk _ ["a"] ["c", "d"] (by decide) (by decide) (by decide)
      (by decide) (by decide)⟩

/-- C1 (code-bug evaluation): `MoveDirectory::plan` performs no validation
at all — on a world whose filesystem does not contain the source it still
returns `Ok` with an `Uncompleted` action and leaves the world untouched,
although the file's own test `fails_when_source_missing` asserts that this
plan call returns an error. -/
theorem movePlanMissingSourceReturnsOk :
    FS.find [([], Node.dir)] ["nonexistent"] = none ∧
    MoveDirectory.plan { fs := [([], Node.dir)], commands := [] }
        ["nonexistent"] ["destination"] =
      (.ok { action := { src := ["nonexistent"], dest := ["destination"] },
             state := .Uncompleted },
       { fs := [([], Node.dir)], commands := [] }) :=
  ⟨by decide, rfl⟩

/-- C2 (code-bug evaluation): even when the destination already exists and
the source is absent, `MoveDirectory::plan` returns an action in state
`Uncompleted`, never `Completed`, although the file's own test
`handles_already_moved_directory` asserts the planned state is
`Completed`. -/
theorem movePlanDestExistsReturnsUncompleted :
    FS.find [([], Node.dir), (["destination"], Node.dir)] ["destination"] =
      some Node.dir ∧
    FS.find [([], Node.dir), (["destination"], Node.dir)] ["source"] = none ∧
    (MoveDirectory.plan
        { fs := [([], Node.dir), (["destination"], Node.dir)], commands := [] }
        ["source"] ["destination"]).1 =
      .ok { action := { src := ["source"], dest := ["destination"] },
            state := .Uncompleted } :=
  ⟨by decide, by decide, rfl⟩

/-- C3 counterexample: when the destination exists but the source is
absent, `execute` fails with `GettingMetadata` on the source (the source
is stat'ed first), not with `DirExists` as the claim states. -/
theorem moveExecuteRevalidatesCounterexample :
    (FS.find [([], Node.dir), (["d"], Node.dir)] ["d"]).isSome = true ∧
    ¬ MoveExecuteRevalidates [([], Node.dir), (["d"], Node.dir)] ["s"] ["d"] := by
  refine ⟨by decide, ?_⟩
  intro h
  have hcontra := h.1 (by decide)
  revert hcontra
  decide

/-- C3 (amended): on a well-formed filesystem, provided the source exists,
`execute` re-validates before mutating: when the destination exists it
returns `DirExists`, and when the source is not a directory, the
destination is absent, and no ancestor of the destination is a regular
file (otherwise the destination-existence probe itself fails first, with
`GettingMetadata` on the destination) it returns `PathWasNotDirectory`;
in both cases the returned filesystem is the input filesystem unchanged. -/
theorem moveExecuteRevalidates (fs : FS) (src dest : FsPath)
    (hwf : fs.WF)
    (hsome : (fs.find src).isSome = true) :
    ((fs.find dest).isSome = true →
      MoveDirectory.execute fs { src := src, dest := dest } =
        (.error (.DirExists dest), fs)) ∧
    (∀ s, fs.find src = some (.file s) → fs.find dest = none →
      (∀ q ∈ dest.inits, isSomeFile (fs.find q) = false) →
      MoveDirectory.execute fs { src := src, dest := dest } =
        (.error (.PathWasNotDirectory src), fs)) := by
  obtain ⟨n, hn⟩ := Option.isSome_iff_exists.mp hsome
  have hmeta : fs.metadata src = fs.find src :=
    metadataEqOfAncDirs fun q hq hne => hwf.ancDir (by simp [hn]) hq hne
  constructor
  · intro hdst
    obtain ⟨m, hm⟩ := Option.isSome_iff_exists.mp hdst
    have htry : fs.try_exists dest = some true := by
      rw [tryExistsSomeOfAncDirs
        (fun q hq hne => hwf.ancDir (by simp [hm]) hq hne), hm]
      rfl
    have hchk : MoveDirectory.check_src_and_dest fs src dest =
        .error (.DirExists dest) := by
      rw [MoveDirectory.check_src_and_dest, hmeta, hn, htry]
      rfl
    simp [MoveDirectory.execute, hchk]
  · intro s hs hd hnof
    have htry : fs.try_exists dest = some false :=
      tryExistsFalseOfNoFiles hd fun q hq => hnof q ((List.mem_inits _ _).mpr hq)
    have hchk : MoveDirectory.check_src_and_dest fs src dest =
        .error (.PathWasNotDirectory src) := by
      rw [MoveDirectory.check_src_and_dest, hmeta, hs, htry]
      rfl
    simp [MoveDirectory.execute, hchk]

/-- C3 witness: the amended theorem applied to the well-formed filesystem
`{/ ↦ dir, /s ↦ file "x", /d ↦ dir}`. -/
theorem moveExecuteRevalidatesWitness :
    FS.WF [([], Node.dir), (["s"], Node.file "x"), (["d"], Node.dir)] ∧
    (FS.find [([], Node.dir), (["s"], Node.file "x"), (["d"], Node.dir)]
      ["s"]).isSome = true ∧
    (((FS.find [([], Node.dir), (["s"], Node.file "x"), (["d"], Node.dir)]
        ["d"]).isSome = true →
      MoveDirectory.execute
          [([], Node.dir), (["s"], Node.file "x"), (["d"], Node.dir)]
          { src := ["s"], dest := ["d"] } =
        (.error (.DirExists ["d"]),
         [([], Node.dir), (["s"], Node.file "x"), (["d"], Node.dir)])) ∧
    (∀ s, FS.find [([], Node.dir), (["s"], Node.file "x"), (["d"], Node.dir)]
        ["s"] = some (.file s) →
      FS.find [([], Node.dir), (["s"], Node.file "x"), (["d"], Node.dir)]
        ["d"] = none →
      (∀ q ∈ (["d"] : FsPath).inits,
        isSomeFile (FS.find
          [([], Node.dir), (["s"], Node.file "x"), (["d"], Node.dir)] q) =
          false) →
      MoveDirectory.execute
          [([], Node.dir), (["s"], Node.file "x"), (["d"], Node.dir)]
          { src := ["s"], dest := ["d"] } =
        (.error (.PathWasNotDirectory ["s"]),
         [([], Node.dir), (["s"], Node.file "x"), (["d"], Node.dir)]))) :=
  ⟨by decide, by decide,
    moveExecuteRevalidates _ ["s"] ["d"] (by decide) (by decide)⟩

/-- C6: none of the embedded plan constructors mutates the target system:
each returns its input world unchanged (no file writes, no directory
creation, no spawned commands). -/
theorem planConstructorsDoNotMutate (w : World) (src dest : FsPath)
    (cs : CommonSettings) (unitName : String) :
    (MoveDirectory.plan w src dest).2 = w ∧
    (CreateUsersAndGroupsSysUsers.plan w cs).2 = w ∧
    (EnableSystemdUnit.plan w unitName).2 = w :=
  ⟨rfl, rfl, rfl⟩

/-- C7: `Bootc::platform_check` succeeds exactly on Linux and on every
other host returns `IncompatibleOperatingSystem` carrying the planner tag
`"bootc"` and the host operating system. -/
theorem bootcPlatformCheck (b : Bootc) (host : OperatingSystem) :
    (b.platform_check host = .ok () ↔ host = .linux) ∧
    (host ≠ .linux →
      b.platform_check host =
        .error (.IncompatibleOperatingSystem "bootc" host)) := by
  cases host <;> simp [Bootc.platform_check, Bootc.typetag_name]

/-- C7 witness: the platform-check theorem applied to a macOS (darwin)
host. -/
theorem bootcPlatformCheckWitness :
    OperatingSystem.darwin ≠ OperatingSystem.linux ∧
    (Bootc.defaultPlanner
        { nix_build_group_name := "nixbld", nix_build_group_id := 30000,
          nix_build_user_count := 32, nix_build_user_prefix := "nixbld",
          nix_build_user_id_base := 30000 }).platform_check .darwin =
      .error (.IncompatibleOperatingSystem "bootc" .darwin) :=
  ⟨by decide,
    (bootcPlatformCheck
      (Bootc.defaultPlanner
        { nix_build_group_name := "nixbld", nix_build_group_id := 30000,
          nix_build_user_count := 32, nix_build_user_prefix := "nixbld",
          nix_build_user_id_base := 30000 }) .darwin).2 (by decide)⟩

/-- C8: every `BootcError` variant is classified as an expected error:
`expected` returns `some` (the error itself), never `none`. -/
theorem bootcErrorAlwaysExpected (e : BootcError) : e.expected = some e := by
  cases e <;> rfl

/-- C9 (code-bug evaluation): at
`nix_build_user_id_base = 30000`, `nix_build_user_count = 1` the synopsis
displays the UID range `30001-30001`, while `execute` writes a single user
line with UID `30000`: the displayed range and the written UID set do not
coincide (they are shifted by one). -/
theorem sysusersUidRangeOffByOne :
    CreateUsersAndGroupsSysUsers.tracing_synopsis
        { nix_build_group_name := "nixbld", nix_build_group_id := 30000,
          nix_build_user_count := 1, nix_build_user_prefix := "nixbld",
          nix_build_user_id_base := 30000 } =
      "Create /usr/lib/sysusers.d/nix.conf with build users nixbld* (UID 30001-30001) and group nixbld (GID 30000)" ∧
    CreateUsersAndGroupsSysUsers.sysusersContent
        { nix_build_group_name := "nixbld", nix_build_group_id := 30000,
          nix_build_user_count := 1, nix_build_user_prefix := "nixbld",
          nix_build_user_id_base := 30000 } =
      "# Nix build group and users.\ng nixbld 30000\nu nixbld1 30000:30000 \"Nix build user 1\"\nm nixbld1 nixbld\n" ∧
    CreateUsersAndGroupsSysUsers.synopsisUserIds
        { nix_build_group_name := "nixbld", nix_build_group_id := 30000,
          nix_build_user_count := 1, nix_build_user_prefix := "nixbld",
          nix_build_user_id_base := 30000 } = [30001] ∧
    CreateUsersAndGroupsSysUsers.executeUserIds
        { nix_build_group_name := "nixbld", nix_build_group_id := 30000,
          nix_build_user_count := 1, nix_build_user_prefix := "nixbld",
          nix_build_user_id_base := 30000 } = [30000] ∧
    CreateUsersAndGroupsSysUsers.synopsisUserIds
        { nix_build_group_name := "nixbld", nix_build_group_id := 30000,
          nix_build_user_count := 1, nix_build_user_prefix := "nixbld",
          nix_build_user_id_base := 30000 } ≠
      CreateUsersAndGroupsSysUsers.executeUserIds
        { nix_build_group_name := "nixbld", nix_build_group_id := 30000,
          nix_build_user_count := 1, nix_build_user_prefix := "nixbld",
          nix_build_user_id_base := 30000 } :=
  ⟨by decide, by decide, by decide, by decide, by decide⟩

/-- C10: `Bootc::configured_settings` returns exactly the key/value pairs
of this planner's settings map that differ from the default planner's
settings map (a pair is kept iff the default binds the key to a different
value or not at all), and in particular it is empty when the planner
equals the default configuration. -/
theorem bootcConfiguredSettingsDiff (b : Bootc) (dcs : CommonSettings)
    (k : String) (v : SettingsValue) :
    (lookupFirst (b.configured_settings dcs) k = some v ↔
      (lookupFirst b.settingsMap k = some v ∧
       lookupFirst (Bootc.defaultPlanner dcs).settingsMap k ≠ some v)) ∧
    (b = Bootc.defaultPlanner dcs →
      lookupFirst (b.configured_settings dcs) k = none) := by
  have hkeys : (b.settingsMap.map Prod.fst).Nodup := by
    have hk : b.settingsMap.map Prod.fst =
        ["nix_build_group_name", "nix_build_group_id", "nix_build_user_count",
         "nix_build_user_prefix", "nix_build_user_id_base", "readonly_image",
         "overlay", "systemd_unit_dir"] := rfl
    rw [hk]
    decide
  constructor
  · cases hlk : lookupFirst b.settingsMap k with
    | none =>
      have hfilter := lookupFirstFilter b.settingsMap
        (fun e => decide
          (lookupFirst (Bootc.defaultPlanner dcs).settingsMap e.1 ≠ some e.2))
        k hkeys
      rw [hlk] at hfilter
      simp at hfilter
      rw [Bootc.configured_settings]
      simp only [ne_eq, decide_not]
      rw [hfilter]
      simp
    | some v0 =>
      have hfilter := lookupFirstFilter b.settingsMap
        (fun e => decide
          (lookupFirst (Bootc.defaultPlanner dcs).settingsMap e.1 ≠ some e.2))
        k hkeys
      rw [hlk] at hfilter
      by_cases hd :
          lookupFirst (Bootc.defaultPlanner dcs).settingsMap k = some v0
      · simp [hd] at hfilter
        rw [Bootc.configured_settings]
        simp only [ne_eq, decide_not]
        rw [hfilter]
        constructor
        · intro hh
          simp at hh
        · rintro ⟨h1, h2⟩
          exact absurd (h1 ▸ hd) h2
      · simp [hd] at hfilter
        rw [Bootc.configured_settings]
        simp only [ne_eq, decide_not]
        rw [hfilter]
        constructor
        · intro hh
          refine ⟨hh, ?_⟩
          have hv : v0 = v := by simpa using hh
          rw [← hv]
          exact hd
        · exact fun hh => hh.1
  · intro hb
    cases hlk : lookupFirst b.settingsMap k with
    | none =>
      have hfilter := lookupFirstFilter b.settingsMap
        (fun e => decide
          (lookupFirst (Bootc.defaultPlanner dcs).settingsMap e.1 ≠ some e.2))
        k hkeys
      rw [hlk] at hfilter
      simp at hfilter
      rw [Bootc.configured_settings]
      simp only [ne_eq, decide_not]
      rw [hfilter]
    | some v0 =>
      have hfilter := lookupFirstFilter b.settingsMap
        (fun e => decide
          (lookupFirst (Bootc.defaultPlanner dcs).settingsMap e.1 ≠ some e.2))
        k hkeys
      rw [hlk] at hfilter
      have hd : lookupFirst (Bootc.defaultPlanner dcs).settingsMap k = some v0 := by
        rw [← hb]
        exact hlk
      simp [hd] at hfilter
      rw [Bootc.configured_settings]
      simp only [ne_eq, decide_not]
      rw [hfilter]

/-- C10 witness: the configured-settings theorem applied to a planner that
equals its default configuration, at the key `"overlay"`. -/
theorem bootcConfiguredSettingsDiffWitness :
    Bootc.defaultPlanner
        { nix_build_group_name := "nixbld", nix_build_group_id := 30000,
          nix_build_user_count := 32, nix_build_user_prefix := "nixbld",
          nix_build_user_id_base := 30000 } =
      Bootc.defaultPlanner
        { nix_build_group_name := "nixbld", nix_build_group_id := 30000,
          nix_build_user_count := 32, nix_build_user_prefix := "nixbld",
          nix_build_user_id_base := 30000 } ∧
    lookupFirst
      ((Bootc.defaultPlanner
          { nix_build_group_name := "nixbld", nix_build_group_id := 30000,
            nix_build_user_count := 32, nix_build_user_prefix := "nixbld",
            nix_build_user_id_base := 30000 }).configured_settings
        { nix_build_group_name := "nixbld", nix_build_group_id := 30000,
          nix_build_user_count := 32, nix_build_user_prefix := "nixbld",
          nix_build_user_id_base := 30000 }) "overlay" = none :=
  ⟨rfl,
    (bootcConfiguredSettingsDiff
      (Bootc.defaultPlanner
        { nix_build_group_name := "nixbld", nix_build_group_id := 30000,
          nix_build_user_count := 32, nix_build_user_prefix := "nixbld",
          nix_build_user_id_base := 30000 })
      { nix_build_group_name := "nixbld", nix_build_group_id := 30000,
        nix_build_user_count := 32, nix_build_user_prefix := "nixbld",
        nix_build_user_id_base := 30000 } "overlay" (.str "")).2 rfl⟩
